import Mathlib

/- Shallow embedding of the Jarvis voice-assistant script (src/main.py).

Strings are modelled as Lean strings; the Python string operations used by
the program (lower, strip, split, replace, startswith, substring test) are
defined explicitly on the underlying character lists. Side effects (opening
a URL in the browser, speaking a text, performing an HTTP GET) are modelled
as events in a trace; an operation that can raise an exception is modelled
with an explicit error flag threaded to the dispatch boundary, and the
external collaborators (speech synthesis backends, news service, AI
service) are modelled as oracles supplied as parameters. -/

namespace Jarvis

/-! Python string primitives, on the character list underlying a string. -/

def isWs (c : Char) : Bool := c.isWhitespace

def lowerL (l : List Char) : List Char := l.map Char.toLower

def stripL (l : List Char) : List Char :=
  ((l.dropWhile isWs).reverse.dropWhile isWs).reverse

/-- Fuel-indexed helper for wordsL; the fuel only makes the recursion
structural and never runs out when it starts at the length of the list. -/
def wordsFuel : Nat → List Char → List (List Char)
  | _, [] => []
  | 0, _ :: _ => []
  | fuel + 1, c :: cs =>
    if isWs c then wordsFuel fuel cs
    else (c :: cs.takeWhile (fun d => !isWs d)) :: wordsFuel fuel (cs.dropWhile (fun d => !isWs d))

/-- Python str.split with no argument: the maximal runs of non-whitespace
characters, in order. -/
def wordsL (l : List Char) : List (List Char) := wordsFuel l.length l

/-- Python sep.join for a single-space separator. -/
def joinSpL : List (List Char) → List Char
  | [] => []
  | [w] => w
  | w :: v :: ws => w ++ ' ' :: joinSpL (v :: ws)

/-- Does the first list occur as a leading segment of the second
(Python str.startswith)? -/
def leadsL : List Char → List Char → Bool
  | [], _ => true
  | _ :: _, [] => false
  | a :: as, b :: bs => a == b && leadsL as bs

/-- Does the first list occur as a contiguous segment of the second
(the Python infix test given by the in operator on strings)? -/
def isSubL (needle : List Char) : List Char → Bool
  | [] => needle.isEmpty
  | c :: cs => leadsL needle (c :: cs) || isSubL needle cs

/-- Python s.replace(needle, empty, 1): remove the first occurrence of
needle from the list. -/
def removeFirstL (needle : List Char) : List Char → List Char
  | [] => []
  | c :: cs =>
    if leadsL needle (c :: cs) then (c :: cs).drop needle.length
    else c :: removeFirstL needle cs

/-- Python s.split(sep) for a one-character separator: empty segments are
kept (so a trailing separator yields a trailing empty segment). -/
def splitOnCh (sep : Char) : List Char → List (List Char)
  | [] => [[]]
  | c :: cs =>
    if c == sep then [] :: splitOnCh sep cs
    else
      match splitOnCh sep cs with
      | [] => [[c]]
      | w :: ws => (c :: w) :: ws

/-- Python remainder.replace(one space, plus sign): every space character in
the list becomes a plus sign. -/
def plusL (l : List Char) : List Char := l.map (fun c => if c == ' ' then '+' else c)

/-! String-level wrappers. -/

def pyLower (s : String) : String := String.mk (lowerL s.data)

def pyStrip (s : String) : String := String.mk (stripL s.data)

def startsWithB (s pre : String) : Bool := leadsL pre.data s.data

/-- Line 119 of src/main.py:
normalize_key s is the single-space join of the words of s.lower().strip(). -/
def normalize_key (s : String) : String :=
  String.mk (joinSpL (wordsL (stripL (lowerL s.data))))

/-! The observable effects of the dispatcher. -/

inductive Ev where
  | openUrl (url : String)
  | speak (text : String)
  | httpGet (url : String)
  deriving DecidableEq

/-- An oracle that never makes webbrowser.open raise. -/
def noFail : String → Bool := fun _ => false

/-- Python dict membership and indexing for the music catalog, modelled as an
association list in iteration order: the value at the first matching key. -/
def dictGet (m : List (String × String)) (k : String) : Option String :=
  (m.find? (fun p => p.1 == k)).map Prod.snd

/-- Line 127 of src/main.py: the query remainder of a play command, i.e.
command_text.lower().replace(play, empty, 1).strip(). -/
def playRemainder (command_text : String) : String :=
  pyStrip (String.mk (removeFirstL "play".data (lowerL command_text.data)))

/-- Lines 160 to 164 of src/main.py: the web video-search fallback. The
openFails oracle tells which URLs make webbrowser.open raise; the Bool in
the result is the raised-exception flag. -/
def fallbackSearch (openFails : String → Bool) (remainder : String) : List Ev × Bool :=
  let url := "https://www.youtube.com/results?search_query=" ++ String.mk (plusL remainder.data)
  if openFails url then ([], true)
  else ([Ev.openUrl url,
         Ev.speak ("Couldn\x27t find the exact song locally. Searching YouTube for "
                   ++ remainder ++ ".")], false)

/-- Lines 122 to 164 of src/main.py: handle a play command. music is the
musicLibrary.music mapping when the module is available. Speak calls are
recorded at the granularity of the speak function; the Bool in the result is
the raised-exception flag (only webbrowser.open can raise here). -/
def handle_play_command (music : Option (List (String × String)))
    (openFails : String → Bool) (command_text : String) : List Ev × Bool :=
  let remainder := playRemainder command_text
  if remainder = "" then ([Ev.speak "Which song should I play?"], false)
  else if startsWithB remainder "http://" || startsWithB remainder "https://" then
    (if openFails remainder then ([], true)
     else ([Ev.openUrl remainder, Ev.speak "Playing from URL."], false))
  else
    match music with
    | some m =>
      let key := normalize_key remainder
      match dictGet m key with
      | some url =>
        if openFails url then ([], true)
        else ([Ev.openUrl url, Ev.speak ("Playing " ++ remainder ++ ".")], false)
      | none =>
        match m.find? (fun p => isSubL key.data p.1.data) with
        | some p =>
          if openFails p.2 then ([], true)
          else ([Ev.openUrl p.2, Ev.speak ("Playing " ++ p.1 ++ ".")], false)
        | none =>
          match m.find? (fun p => leadsL key.data p.1.data) with
          | some p =>
            if openFails p.2 then ([], true)
            else ([Ev.openUrl p.2, Ev.speak ("Playing " ++ p.1 ++ ".")], false)
          | none => fallbackSearch openFails remainder
    | none => fallbackSearch openFails remainder

/-! The news service (lines 100 to 117 of src/main.py). -/

structure Article where
  title : Option String
  deriving DecidableEq

/-- The outcome of the single HTTP GET that get_headlines performs:
either requests.get or r.json() raised, or an HTTP status together with the
articles field of the JSON body (none when the field is missing). -/
inductive NewsResponse where
  | exn
  | http (status : Nat) (articles : Option (List Article))
  deriving DecidableEq

def newsUrl (key : String) : String :=
  "https://newsapi.org/v2/top-headlines?country=in&apiKey=" ++ key

/-- Lines 100 to 117 of src/main.py. The country and page_size parameters
mirror the Python signature get_headlines(country, page_size); the body
hard-codes country in the URL and never uses page_size. Returns the trace
of HTTP requests and the headline list. -/
def get_headlines (newsKey : Option String) (resp : NewsResponse)
    (country : String) (page_size : Nat) : List Ev × List String :=
  match newsKey with
  | none => ([], ["News API key not configured. Put NEWS_API_KEY in client.py."])
  | some k =>
    if k = "" then ([], ["News API key not configured. Put NEWS_API_KEY in client.py."])
    else
      match resp with
      | .exn => ([Ev.httpGet (newsUrl k)], ["Error fetching news."])
      | .http status articles =>
        if status ≠ 200 then
          ([Ev.httpGet (newsUrl k)], ["Failed to fetch news: HTTP " ++ toString status])
        else
          let arts := articles.getD []
          if arts = [] then ([Ev.httpGet (newsUrl k)], ["No news articles found."])
          else ([Ev.httpGet (newsUrl k)], arts.map (fun a => a.title.getD "Untitled"))

/-- Lines 79 to 98 of src/main.py: the AI call never raises; it returns the
fixed instructional string when unconfigured, the stripped response text on
success, and a fixed apology when the call failed. -/
def aiProcess (aiConfigured : Bool) (aiResp : Option String) (command : String) : String :=
  if !aiConfigured then
    "AI not configured. Please set OPENAI_API_KEY in client.py and install openai package."
  else
    match aiResp with
    | none => "Sorry, I couldn\x27t reach the AI service."
    | some t => pyStrip t

/-! The dispatcher (lines 166 to 209 of src/main.py). -/

structure Config where
  newsKey : Option String
  music : Option (List (String × String))
  aiConfigured : Bool

structure World where
  openFails : String → Bool
  news : NewsResponse
  ai : Option String

/-- One open-site branch of the dispatcher: webbrowser.open then speak. -/
def openSite (w : World) (url msg : String) : List Ev × Bool :=
  if w.openFails url then ([], true) else ([Ev.openUrl url, Ev.speak msg], false)

/-- The body of the try block of processCommand: the first-match-wins chain
of branch predicates on the lower-cased command, applied to the stripped
command c. The Bool in the result is the raised-exception flag. -/
def processBody (cfg : Config) (w : World) (c : String) : List Ev × Bool :=
  let lower := pyLower c
  if isSubL "open google".data lower.data then
    openSite w "https://google.com" "Opening Google."
  else if isSubL "open facebook".data lower.data then
    openSite w "https://facebook.com" "Opening Facebook."
  else if isSubL "open youtube".data lower.data then
    openSite w "https://youtube.com" "Opening YouTube."
  else if isSubL "open linkedin".data lower.data then
    openSite w "https://linkedin.com" "Opening LinkedIn."
  else if startsWithB lower "play" then
    handle_play_command cfg.music w.openFails c
  else if isSubL "news".data lower.data then
    let r := get_headlines cfg.newsKey w.news "in" 5
    (Ev.speak "Fetching the top headlines." :: (r.1 ++ r.2.map Ev.speak), false)
  else
    ([Ev.speak "Let me check.", Ev.speak (aiProcess cfg.aiConfigured w.ai c)], false)

def apologyMsg : String := "Sorry, I encountered an error while processing the command."

/-- Lines 166 to 209 of src/main.py: strip the command, return on empty,
run the branch chain inside try, and convert a raised exception into one
spoken apology at the except boundary. The Bool in the result tells whether
an exception escaped processCommand itself. -/
def processCommand (cfg : Config) (w : World) (c : String) : List Ev × Bool :=
  let s := pyStrip c
  if s = "" then ([], false)
  else
    let r := processBody cfg w s
    if r.2 then (r.1 ++ [Ev.speak apologyMsg], false) else r

/-! The text chunker and speech output adapter (lines 43 to 77). -/

/-- Line 75 of src/main.py: the arguments of the successive
speak_with_pygame calls that speak text makes: split on the period
character, strip each segment, drop empty segments, append a period. -/
def speakCalls (text : String) : List String :=
  if text = "" then []
  else (((splitOnCh '.' text.data).map stripL).filter (fun w => !w.isEmpty)).map
        (fun w => String.mk (w ++ ['.']))

/-- The synthesis-level events of one speak_with_pygame call. -/
inductive SynthEv where
  | primaryPlayed (text : String)
  | primaryFailure (text : String)
  | fallbackPlayed (text : String)
  | fallbackFailure (text : String)
  deriving DecidableEq

/-- Lines 43 to 68 of src/main.py: try the gTTS and pygame path; on any
failure fall back to pyttsx3 with the same text; on a second failure log and
return normally. pOk and sOk are oracles telling for which texts the primary
and the secondary path succeed. -/
def speak_with_pygame (pOk sOk : String → Bool) (text : String) : List SynthEv :=
  if pOk text then [.primaryPlayed text]
  else if sOk text then [.primaryFailure text, .fallbackPlayed text]
  else [.primaryFailure text, .fallbackFailure text]

/-- Lines 70 to 77 of src/main.py: speak drives speak_with_pygame over the
chunks sequentially. -/
def speakRun (pOk sOk : String → Bool) (text : String) : List SynthEv :=
  (speakCalls text).flatMap (speak_with_pygame pOk sOk)

/-- The text a synthesis event attempted on the primary path, if any. -/
def primaryText : SynthEv → Option String
  | .primaryPlayed t => some t
  | .primaryFailure t => some t
  | _ => none

end Jarvis

namespace Jarvis

/-! Character-level lemmas about Char.toLower and whitespace. -/

theorem char_toNat_ofNat {m : Nat} (h : m.isValidChar) : (Char.ofNat m).toNat = m := by
  rw [Char.ofNat, dif_pos h]; rfl

theorem toLower_eq (c : Char) :
    Char.toLower c = if c.toNat ≥ 65 ∧ c.toNat ≤ 90 then Char.ofNat (c.toNat + 32) else c := rfl

theorem toNat_toLower (c : Char) :
    (Char.toLower c).toNat = if c.toNat ≥ 65 ∧ c.toNat ≤ 90 then c.toNat + 32 else c.toNat := by
  rw [toLower_eq]
  by_cases h : c.toNat ≥ 65 ∧ c.toNat ≤ 90
  · rw [if_pos h, if_pos h, char_toNat_ofNat (Or.inl (by omega))]
  · rw [if_neg h, if_neg h]

theorem toLower_idem (c : Char) : Char.toLower (Char.toLower c) = Char.toLower c := by
  rw [toLower_eq (Char.toLower c), toNat_toLower]
  by_cases h : c.toNat ≥ 65 ∧ c.toNat ≤ 90
  · rw [if_pos h, if_neg (by omega)]
  · rw [if_neg h, if_neg h]

theorem isWs_false_of_ge65 {d : Char} (h : 65 ≤ d.toNat) : isWs d = false := by
  have h1 : d ≠ ' ' := by intro e; subst e; exact absurd h (by decide)
  have h2 : d ≠ '\t' := by intro e; subst e; exact absurd h (by decide)
  have h3 : d ≠ '\r' := by intro e; subst e; exact absurd h (by decide)
  have h4 : d ≠ '\n' := by intro e; subst e; exact absurd h (by decide)
  simp [isWs, Char.isWhitespace, h1, h2, h3, h4]

theorem isWs_toLower (c : Char) : isWs (Char.toLower c) = isWs c := by
  by_cases h : c.toNat ≥ 65 ∧ c.toNat ≤ 90
  · have hl : 65 ≤ (Char.toLower c).toNat := by rw [toNat_toLower, if_pos h]; omega
    rw [isWs_false_of_ge65 hl, isWs_false_of_ge65 h.1]
  · rw [isWs, isWs, toLower_eq, if_neg h]

theorem isWs_comp_toLower : isWs ∘ Char.toLower = isWs := funext isWs_toLower

theorem nws_comp_toLower :
    (fun d => !isWs d) ∘ Char.toLower = (fun d => !isWs d) :=
  funext (fun d => by show (!isWs (Char.toLower d)) = (!isWs d); rw [isWs_toLower])

theorem toLower_space : Char.toLower ' ' = ' ' := rfl

theorem lowerL_idem (l : List Char) : lowerL (lowerL l) = lowerL l := by
  simp only [lowerL, List.map_map]
  exact List.map_congr_left (fun a _ => toLower_idem a)

/-! takeWhile and dropWhile helper lemmas. -/

theorem takeWhile_of_all {α : Type} {p : α → Bool} {l : List α}
    (h : ∀ c ∈ l, p c = true) : l.takeWhile p = l :=
  List.takeWhile_eq_self_iff.mpr h

theorem dropWhile_of_all {α : Type} {p : α → Bool} {l : List α}
    (h : ∀ c ∈ l, p c = true) : l.dropWhile p = [] :=
  List.dropWhile_eq_nil_iff.mpr h

theorem takeWhile_append_stop {α : Type} {p : α → Bool} {l r : List α} {x : α}
    (hl : ∀ c ∈ l, p c = true) (hx : p x = false) :
    (l ++ x :: r).takeWhile p = l := by
  rw [List.takeWhile_append, if_pos (by rw [takeWhile_of_all hl]),
      List.takeWhile_cons, if_neg (by simp [hx]), List.append_nil]

theorem dropWhile_append_stop {α : Type} {p : α → Bool} {l r : List α} {x : α}
    (hl : ∀ c ∈ l, p c = true) (hx : p x = false) :
    (l ++ x :: r).dropWhile p = x :: r := by
  rw [List.dropWhile_append, if_pos (by rw [dropWhile_of_all hl]; rfl),
      List.dropWhile_cons, if_neg (by simp [hx])]

theorem takeWhile_append_none {α : Type} {p : α → Bool} {l t : List α}
    (ht : ∀ c ∈ t, p c = false) : (l ++ t).takeWhile p = l.takeWhile p := by
  rw [List.takeWhile_append]
  split
  · next hlen =>
      have hl : l.takeWhile p = l := (List.takeWhile_sublist p).eq_of_length hlen
      cases t with
      | nil => rw [hl]; simp
      | cons x xs =>
        rw [List.takeWhile_cons, if_neg (by simp [ht x (by simp)]), hl, List.append_nil]
  · rfl

theorem dropWhile_append_none {α : Type} {p : α → Bool} {l t : List α}
    (ht : ∀ c ∈ t, p c = false) : (l ++ t).dropWhile p = l.dropWhile p ++ t := by
  rw [List.dropWhile_append]
  split
  · next he =>
      have h0 : l.dropWhile p = [] := by
        cases h : l.dropWhile p with
        | nil => rfl
        | cons a as => rw [h] at he; simp at he
      rw [h0]
      cases t with
      | nil => simp
      | cons x xs => rw [List.dropWhile_cons, if_neg (by simp [ht x (by simp)])]; simp
  · rfl

/-! Lemmas about wordsL, the model of Python str.split with no argument. -/

theorem wordsFuel_congr : ∀ (f g : Nat) (l : List Char), l.length ≤ f → l.length ≤ g →
    wordsFuel f l = wordsFuel g l := by
  intro f
  induction f with
  | zero =>
    intro g l hf hg
    cases l with
    | nil => cases g <;> rfl
    | cons c cs => simp at hf
  | succ n ih =>
    intro g l hf hg
    cases l with
    | nil => cases g <;> rfl
    | cons c cs =>
      cases g with
      | zero => simp at hg
      | succ m =>
        simp only [List.length_cons] at hf hg
        simp only [wordsFuel]
        by_cases h : isWs c = true
        · rw [if_pos h, if_pos h]
          exact ih m cs (by omega) (by omega)
        · rw [if_neg h, if_neg h]
          have hd : (cs.dropWhile (fun d => !isWs d)).length ≤ cs.length :=
            List.Sublist.length_le (List.dropWhile_sublist _)
          exact congrArg _ (ih m _ (by omega) (by omega))

theorem wordsL_cons_ws {c : Char} (l : List Char) (h : isWs c = true) :
    wordsL (c :: l) = wordsL l := by
  simp only [wordsL, List.length_cons, wordsFuel, h, if_true]

theorem wordsL_cons_nws {c : Char} (l : List Char) (h : isWs c = false) :
    wordsL (c :: l) =
      (c :: l.takeWhile (fun d => !isWs d)) :: wordsL (l.dropWhile (fun d => !isWs d)) := by
  simp only [wordsL, List.length_cons, wordsFuel, h, if_false, Bool.false_eq_true]
  exact congrArg _ (wordsFuel_congr l.length _ _
    (List.Sublist.length_le (List.dropWhile_sublist _)) le_rfl)

theorem wordsL_all_ws {l : List Char} (h : ∀ c ∈ l, isWs c = true) : wordsL l = [] := by
  induction l with
  | nil => rfl
  | cons c cs ih =>
    rw [wordsL_cons_ws cs (h c (by simp))]
    exact ih (fun d hd => h d (by simp [hd]))

theorem wordsL_append_ws_aux : ∀ (f : Nat) (l t : List Char), l.length ≤ f →
    (∀ c ∈ t, isWs c = true) → wordsL (l ++ t) = wordsL l := by
  intro f
  induction f with
  | zero =>
    intro l t hl ht
    cases l with
    | nil => simpa using wordsL_all_ws ht
    | cons c cs => simp at hl
  | succ n ih =>
    intro l t hl ht
    cases l with
    | nil => simpa using wordsL_all_ws ht
    | cons c cs =>
      simp only [List.length_cons] at hl
      by_cases h : isWs c = true
      · rw [List.cons_append, wordsL_cons_ws _ h, wordsL_cons_ws _ h]
        exact ih cs t (by omega) ht
      · have h0 : isWs c = false := by simpa using h
        rw [List.cons_append, wordsL_cons_nws _ h0, wordsL_cons_nws _ h0]
        have htn : ∀ d ∈ t, (fun d => !isWs d) d = false := fun d hd => by simp [ht d hd]
        rw [takeWhile_append_none htn, dropWhile_append_none htn]
        have hd : (cs.dropWhile (fun d => !isWs d)).length ≤ n :=
          le_trans (List.Sublist.length_le (List.dropWhile_sublist _)) (by omega)
        rw [ih _ t hd ht]

theorem wordsL_append_allWs {l t : List Char} (ht : ∀ c ∈ t, isWs c = true) :
    wordsL (l ++ t) = wordsL l :=
  wordsL_append_ws_aux l.length l t le_rfl ht

theorem wordsL_dropWhile_ws (l : List Char) : wordsL (l.dropWhile isWs) = wordsL l := by
  induction l with
  | nil => rfl
  | cons c cs ih =>
    by_cases h : isWs c = true
    · rw [List.dropWhile_cons, if_pos h, ih, wordsL_cons_ws _ h]
    · rw [List.dropWhile_cons, if_neg h]

theorem stripL_decomp (l : List Char) :
    ∃ t, (∀ c ∈ t, isWs c = true) ∧ l.dropWhile isWs = stripL l ++ t := by
  refine ⟨((l.dropWhile isWs).reverse.takeWhile isWs).reverse, ?_, ?_⟩
  · intro c hc
    rw [List.mem_reverse] at hc
    exact List.mem_takeWhile_imp hc
  · conv_lhs => rw [← List.reverse_reverse (l.dropWhile isWs),
      ← List.takeWhile_append_dropWhile isWs (l.dropWhile isWs).reverse]
    rw [List.reverse_append]
    rfl

theorem wordsL_stripL (l : List Char) : wordsL (stripL l) = wordsL l := by
  obtain ⟨t, ht, hd⟩ := stripL_decomp l
  have h1 : wordsL (l.dropWhile isWs) = wordsL (stripL l) := by
    rw [hd]; exact wordsL_append_allWs ht
  rw [← h1, wordsL_dropWhile_ws]

theorem wordsL_sound_aux : ∀ (f : Nat) (l : List Char), l.length ≤ f →
    ∀ w ∈ wordsL l, w ≠ [] ∧ ∀ c ∈ w, isWs c = false := by
  intro f
  induction f with
  | zero =>
    intro l hl w hw
    cases l with
    | nil => simp [wordsL, wordsFuel] at hw
    | cons c cs => simp at hl
  | succ n ih =>
    intro l hl w hw
    cases l with
    | nil => simp [wordsL, wordsFuel] at hw
    | cons c cs =>
      simp only [List.length_cons] at hl
      by_cases h : isWs c = true
      · rw [wordsL_cons_ws _ h] at hw
        exact ih cs (by omega) w hw
      · have h0 : isWs c = false := by simpa using h
        rw [wordsL_cons_nws _ h0] at hw
        rcases List.mem_cons.mp hw with rfl | hw
        · refine ⟨by simp, ?_⟩
          intro d hd
          rcases List.mem_cons.mp hd with rfl | hd
          · exact h0
          · have := List.mem_takeWhile_imp hd
            simpa using this
        · have hd : (cs.dropWhile (fun d => !isWs d)).length ≤ n :=
            le_trans (List.Sublist.length_le (List.dropWhile_sublist _)) (by omega)
          exact ih _ hd w hw

theorem wordsL_sound {l : List Char} {w : List Char} (hw : w ∈ wordsL l) :
    w ≠ [] ∧ ∀ c ∈ w, isWs c = false :=
  wordsL_sound_aux l.length l le_rfl w hw

theorem joinSpL_words_inv : ∀ (ws : List (List Char)),
    (∀ w ∈ ws, w ≠ []) → (∀ w ∈ ws, ∀ c ∈ w, isWs c = false) →
    wordsL (joinSpL ws) = ws := by
  intro ws
  induction ws with
  | nil => intro _ _; rfl
  | cons w vs ih =>
    intro hne hnw
    have hw : w ≠ [] := hne w (by simp)
    have hwc : ∀ c ∈ w, isWs c = false := hnw w (by simp)
    have hwt : ∀ c ∈ w.tail, (fun d => !isWs d) c = true := by
      intro d hd
      have : d ∈ w := by
        cases w with
        | nil => simp at hd
        | cons a as => exact List.mem_cons_of_mem a hd
      simp [hwc d this]
    cases vs with
    | nil =>
      cases w with
      | nil => exact absurd rfl hw
      | cons a as =>
        show wordsL (a :: as) = [a :: as]
        rw [wordsL_cons_nws as (hwc a (by simp)),
            takeWhile_of_all (by simpa using hwt),
            dropWhile_of_all (by simpa using hwt)]
        rfl
    | cons v vs2 =>
      cases w with
      | nil => exact absurd rfl hw
      | cons a as =>
        show wordsL ((a :: as) ++ ' ' :: joinSpL (v :: vs2)) = (a :: as) :: v :: vs2
        rw [List.cons_append, wordsL_cons_nws _ (hwc a (by simp)),
            takeWhile_append_stop (by simpa using hwt) (by decide),
            dropWhile_append_stop (by simpa using hwt) (by decide),
            wordsL_cons_ws _ (by decide),
            ih (fun x hx => hne x (by simp [hx])) (fun x hx => hnw x (by simp [hx]))]

/-! Commutation of lowering with stripping, splitting and joining. -/

theorem stripL_lowerL (l : List Char) : stripL (lowerL l) = lowerL (stripL l) := by
  simp only [stripL, lowerL]
  rw [List.dropWhile_map, isWs_comp_toLower, ← List.map_reverse,
      List.dropWhile_map, isWs_comp_toLower, ← List.map_reverse]

theorem wordsL_lowerL_aux : ∀ (f : Nat) (l : List Char), l.length ≤ f →
    wordsL (lowerL l) = (wordsL l).map lowerL := by
  intro f
  induction f with
  | zero =>
    intro l hl
    cases l with
    | nil => rfl
    | cons c cs => simp at hl
  | succ n ih =>
    intro l hl
    cases l with
    | nil => rfl
    | cons c cs =>
      simp only [List.length_cons] at hl
      show wordsL (Char.toLower c :: lowerL cs) = (wordsL (c :: cs)).map lowerL
      by_cases h : isWs c = true
      · rw [wordsL_cons_ws _ (by rw [isWs_toLower]; exact h), wordsL_cons_ws _ h]
        exact ih cs (by omega)
      · have h0 : isWs c = false := by simpa using h
        rw [wordsL_cons_nws _ (by rw [isWs_toLower]; exact h0), wordsL_cons_nws _ h0]
        show (Char.toLower c :: (lowerL cs).takeWhile (fun d => !isWs d)) ::
              wordsL ((lowerL cs).dropWhile (fun d => !isWs d)) = _
        rw [lowerL, List.takeWhile_map, nws_comp_toLower,
            List.dropWhile_map, nws_comp_toLower]
        have hd : (cs.dropWhile (fun d => !isWs d)).length ≤ n :=
          le_trans (List.Sublist.length_le (List.dropWhile_sublist _)) (by omega)
        rw [show (cs.dropWhile (fun d => !isWs d)).map Char.toLower =
              lowerL (cs.dropWhile (fun d => !isWs d)) from rfl,
            ih _ hd]
        rfl

theorem wordsL_lowerL (l : List Char) :
    wordsL (lowerL l) = (wordsL l).map lowerL :=
  wordsL_lowerL_aux l.length l le_rfl

theorem joinSpL_map_lowerL (ws : List (List Char)) :
    joinSpL (ws.map lowerL) = lowerL (joinSpL ws) := by
  induction ws with
  | nil => rfl
  | cons w vs ih =>
    cases vs with
    | nil => rfl
    | cons v vs2 =>
      show lowerL w ++ ' ' :: joinSpL (lowerL v :: vs2.map lowerL) =
            lowerL (w ++ ' ' :: joinSpL (v :: vs2))
      rw [show joinSpL (lowerL v :: vs2.map lowerL) =
            joinSpL ((v :: vs2).map lowerL) from rfl, ih]
      simp only [lowerL, List.map_append, List.map_cons, toLower_space]

end Jarvis

namespace Jarvis

/-- Claim C9: normalization is idempotent: for every string, applying
normalize_key to an already-normalized string returns it unchanged. -/
theorem normalize_key_idem (s : String) :
    normalize_key (normalize_key s) = normalize_key s := by
  have hnd : (normalize_key s).data = lowerL (joinSpL (wordsL (stripL s.data))) := by
    show joinSpL (wordsL (stripL (lowerL s.data))) = _
    rw [stripL_lowerL, wordsL_lowerL, joinSpL_map_lowerL]
  have hfix : lowerL ((normalize_key s).data) = (normalize_key s).data := by
    rw [hnd, lowerL_idem]
  have hwords : wordsL ((normalize_key s).data) = (wordsL (stripL s.data)).map lowerL := by
    rw [hnd, ← joinSpL_map_lowerL]
    apply joinSpL_words_inv
    · intro w hw
      rcases List.mem_map.mp hw with ⟨w0, hw0, rfl⟩
      have h1 := (wordsL_sound hw0).1
      simpa [lowerL] using h1
    · intro w hw c hc
      rcases List.mem_map.mp hw with ⟨w0, hw0, rfl⟩
      rcases List.mem_map.mp hc with ⟨d, hd, rfl⟩
      rw [isWs_toLower]
      exact (wordsL_sound hw0).2 d hd
  show String.mk (joinSpL (wordsL (stripL (lowerL (normalize_key s).data)))) = normalize_key s
  rw [hfix, wordsL_stripL, hwords, joinSpL_map_lowerL, ← hnd]

/-! Helper lemmas for the catalog-scan claims. -/

theorem find?_first {α : Type} (p : α → Bool) (pre post : List α) (x : α)
    (hpre : ∀ y ∈ pre, p y = false) (hx : p x = true) :
    (pre ++ x :: post).find? p = some x := by
  induction pre with
  | nil => simp [List.find?, hx]
  | cons a as ih =>
    have ha : p a = false := hpre a (by simp)
    rw [List.cons_append]
    simp only [List.find?, ha]
    exact ih (fun y hy => hpre y (by simp [hy]))

theorem removeFirstL_of_leads {needle l : List Char} (h : leadsL needle l = true) :
    removeFirstL needle l = l.drop needle.length := by
  cases l with
  | nil =>
    cases needle with
    | nil => rfl
    | cons a b => simp [leadsL] at h
  | cons c cs => rw [removeFirstL, if_pos h]

end Jarvis
namespace Jarvis

/-- Claim C1 (amended): for every catalog and every play command whose
normalized remainder is present verbatim as a catalog key, song lookup opens
exactly the mapped URL without the contains, starts-with or web-search tiers
influencing the result, and speaks Playing followed by the remainder (the
lower-cased command text after removing the first occurrence of play and
stripping surrounding whitespace) and a period. -/
theorem play_exact_hit (m : List (String × String)) (cmd u : String)
    (h0 : playRemainder cmd ≠ "")
    (h1 : startsWithB (playRemainder cmd) "http://" = false)
    (h2 : startsWithB (playRemainder cmd) "https://" = false)
    (h3 : dictGet m (normalize_key (playRemainder cmd)) = some u) :
    handle_play_command (some m) noFail cmd =
      ([Ev.openUrl u, Ev.speak ("Playing " ++ playRemainder cmd ++ ".")], false) := by
  simp only [handle_play_command, h0, h1, h2, h3, noFail, Bool.or_self,
    Bool.false_eq_true, if_false, ite_false]

/-- Claim C1 witness. -/
theorem play_exact_hit_witness :
    handle_play_command (some [("despacito", "url1")]) noFail "play despacito" =
      ([Ev.openUrl "url1", Ev.speak ("Playing " ++ playRemainder "play despacito" ++ ".")],
       false) :=
  play_exact_hit [("despacito", "url1")] "play despacito" "url1"
    (by decide) (by decide) (by decide) (by decide)

/-- Claim C1 counterexample: the spoken remainder is the lower-cased text,
not the command text preserved as given: for play Despacito the program
speaks Playing despacito, never Playing Despacito. -/
theorem play_exact_hit_cex :
    (handle_play_command (some [("despacito", "url1")]) noFail "play Despacito").1 =
      [Ev.openUrl "url1", Ev.speak "Playing despacito."] ∧
    Ev.speak "Playing Despacito." ∉
      (handle_play_command (some [("despacito", "url1")]) noFail "play Despacito").1 := by
  decide

/-- Claim C2: below the exact tier, the contains tier is scanned first: the
first key in catalog iteration order that contains the normalized query
wins, and the starts-with tier is consulted only when no key contains the
normalized query (again first match in iteration order). -/
theorem play_contains_tier (m : List (String × String)) (cmd : String)
    (h0 : playRemainder cmd ≠ "")
    (h1 : startsWithB (playRemainder cmd) "http://" = false)
    (h2 : startsWithB (playRemainder cmd) "https://" = false)
    (h3 : dictGet m (normalize_key (playRemainder cmd)) = none) :
    (∀ pre post k u, m = pre ++ (k, u) :: post →
       isSubL (normalize_key (playRemainder cmd)).data k.data = true →
       (∀ q ∈ pre, isSubL (normalize_key (playRemainder cmd)).data q.1.data = false) →
       handle_play_command (some m) noFail cmd =
         ([Ev.openUrl u, Ev.speak ("Playing " ++ k ++ ".")], false))
    ∧ ((∀ q ∈ m, isSubL (normalize_key (playRemainder cmd)).data q.1.data = false) →
       ∀ pre post k u, m = pre ++ (k, u) :: post →
         leadsL (normalize_key (playRemainder cmd)).data k.data = true →
         (∀ q ∈ pre, leadsL (normalize_key (playRemainder cmd)).data q.1.data = false) →
         handle_play_command (some m) noFail cmd =
           ([Ev.openUrl u, Ev.speak ("Playing " ++ k ++ ".")], false)) := by
  constructor
  · intro pre post k u hm hk hpre
    subst hm
    have hf : (pre ++ (k, u) :: post).find?
        (fun p => isSubL (normalize_key (playRemainder cmd)).data p.1.data) = some (k, u) :=
      find?_first _ pre post (k, u) (fun y hy => hpre y hy) hk
    simp only [handle_play_command, h0, h1, h2, h3, hf, noFail, Bool.or_self,
      Bool.false_eq_true, if_false, ite_false]
  · intro hnone pre post k u hm hk hpre
    have hcont : m.find?
        (fun p => isSubL (normalize_key (playRemainder cmd)).data p.1.data) = none :=
      List.find?_eq_none.mpr (fun x hx => by simp [hnone x hx])
    subst hm
    have hf : (pre ++ (k, u) :: post).find?
        (fun p => leadsL (normalize_key (playRemainder cmd)).data p.1.data) = some (k, u) :=
      find?_first _ pre post (k, u) (fun y hy => hpre y hy) hk
    simp only [handle_play_command, h0, h1, h2, h3, hcont, hf, noFail, Bool.or_self,
      Bool.false_eq_true, if_false, ite_false]

/-- Claim C2 witness. -/
theorem play_contains_tier_witness :
    handle_play_command (some [("aa", "u1"), ("xba", "u2"), ("xbc", "u3")]) noFail "play b" =
      ([Ev.openUrl "u2", Ev.speak ("Playing " ++ "xba" ++ ".")], false) :=
  (play_contains_tier [("aa", "u1"), ("xba", "u2"), ("xbc", "u3")] "play b"
      (by decide) (by decide) (by decide) (by decide)).1
    [("aa", "u1")] [("xbc", "u3")] "xba" "u2" rfl (by decide) (by decide)

/-- Claim C3 (amended): when no exact, contains or starts-with match exists,
song lookup opens the YouTube search URL whose query part is the remainder
with every space character replaced by a plus sign (one plus per space
character), and speaks a message naming the remainder. -/
theorem play_search_fallback (m : List (String × String)) (cmd : String)
    (h0 : playRemainder cmd ≠ "")
    (h1 : startsWithB (playRemainder cmd) "http://" = false)
    (h2 : startsWithB (playRemainder cmd) "https://" = false)
    (h3 : dictGet m (normalize_key (playRemainder cmd)) = none)
    (h4 : ∀ q ∈ m, isSubL (normalize_key (playRemainder cmd)).data q.1.data = false)
    (h5 : ∀ q ∈ m, leadsL (normalize_key (playRemainder cmd)).data q.1.data = false) :
    handle_play_command (some m) noFail cmd =
      ([Ev.openUrl ("https://www.youtube.com/results?search_query="
           ++ String.mk (plusL (playRemainder cmd).data)),
        Ev.speak ("Couldn\x27t find the exact song locally. Searching YouTube for "
           ++ playRemainder cmd ++ ".")], false) := by
  have hcont : m.find?
      (fun p => isSubL (normalize_key (playRemainder cmd)).data p.1.data) = none :=
    List.find?_eq_none.mpr (fun x hx => by simp [h4 x hx])
  have hlead : m.find?
      (fun p => leadsL (normalize_key (playRemainder cmd)).data p.1.data) = none :=
    List.find?_eq_none.mpr (fun x hx => by simp [h5 x hx])
  simp only [handle_play_command, fallbackSearch, h0, h1, h2, h3, hcont, hlead, noFail,
    Bool.or_self, Bool.false_eq_true, if_false, ite_false]

/-- Claim C3 witness. -/
theorem play_search_fallback_witness :
    handle_play_command (some [("aa", "u1")]) noFail "play zz" =
      ([Ev.openUrl ("https://www.youtube.com/results?search_query="
           ++ String.mk (plusL (playRemainder "play zz").data)),
        Ev.speak ("Couldn\x27t find the exact song locally. Searching YouTube for "
           ++ playRemainder "play zz" ++ ".")], false) :=
  play_search_fallback [("aa", "u1")] "play zz"
    (by decide) (by decide) (by decide) (by decide) (by decide) (by decide)

/-- Claim C3 counterexample: for the query zzz qqq with two spaces between
the words, the code emits one plus sign per space character, giving two
consecutive plus signs, not one plus between consecutive words. -/
theorem play_search_fallback_cex :
    (handle_play_command (some []) noFail "play zzz  qqq").1 =
      [Ev.openUrl "https://www.youtube.com/results?search_query=zzz++qqq",
       Ev.speak "Couldn\x27t find the exact song locally. Searching YouTube for zzz  qqq."] ∧
    Ev.openUrl "https://www.youtube.com/results?search_query=zzz+qqq" ∉
      (handle_play_command (some []) noFail "play zzz  qqq").1 := by
  decide

end Jarvis

namespace Jarvis

/-- Claim C4: the chunker splits its input on the literal period, trims each
segment, drops empty segments and re-appends one period, issuing the
synthesis calls sequentially in input order: the three spec scenarios. -/
theorem speak_chunking :
    speakCalls "A. B. C." = ["A.", "B.", "C."] ∧
    speakCalls "" = [] ∧
    speakCalls "NoPeriodHere" = ["NoPeriodHere."] := by decide

/-- Claim C5 (amended): for a play-routed command the remainder is the
lower-cased command with the first occurrence of the substring play removed
(its leading four characters, not a whole-word token) and surrounding
whitespace stripped; an empty remainder makes the handler speak the
clarifying question and stop, with no URL opened and no matching done. -/
theorem play_remainder_empty (mus : Option (List (String × String)))
    (oF : String → Bool) (cmd : String) :
    (leadsL "play".data (lowerL cmd.data) = true →
      playRemainder cmd = pyStrip (String.mk ((lowerL cmd.data).drop 4)))
    ∧ (playRemainder cmd = "" →
      handle_play_command mus oF cmd = ([Ev.speak "Which song should I play?"], false)) := by
  constructor
  · intro h
    unfold playRemainder
    rw [removeFirstL_of_leads h]
    rfl
  · intro h
    simp only [handle_play_command, h, if_true, ite_true]

/-- Claim C5 witness. -/
theorem play_remainder_empty_witness :
    playRemainder "play x" = pyStrip (String.mk ((lowerL ("play x").data).drop 4)) ∧
    handle_play_command (some []) noFail "play" =
      ([Ev.speak "Which song should I play?"], false) :=
  ⟨(play_remainder_empty (some []) noFail "play x").1 (by decide),
   (play_remainder_empty (some []) noFail "play").2 (by decide)⟩

/-- Claim C5 counterexample: the command playlist hits is routed to song
lookup since it starts with play, and the code removes the four characters
play from inside the word playlist, leaving list hits; removing a leading
whole-word play token would have left playlist hits. -/
theorem play_remainder_empty_cex :
    playRemainder "playlist hits" = "list hits" ∧
    playRemainder "playlist hits" ≠ "playlist hits" := by decide

/-- Claim C6 (amended): a news command dispatched while no news API key is
configured speaks the fetching announcement followed by the
configuration-missing message, and performs no HTTP request. -/
theorem news_without_key (cfg : Config) (w : World) (c : String)
    (hkey : cfg.newsKey = none)
    (hne : pyStrip c ≠ "")
    (hg : isSubL "open google".data (pyLower (pyStrip c)).data = false)
    (hf : isSubL "open facebook".data (pyLower (pyStrip c)).data = false)
    (hy : isSubL "open youtube".data (pyLower (pyStrip c)).data = false)
    (hli : isSubL "open linkedin".data (pyLower (pyStrip c)).data = false)
    (hp : startsWithB (pyLower (pyStrip c)) "play" = false)
    (hn : isSubL "news".data (pyLower (pyStrip c)).data = true) :
    processCommand cfg w c =
      ([Ev.speak "Fetching the top headlines.",
        Ev.speak "News API key not configured. Put NEWS_API_KEY in client.py."], false) := by
  simp only [processCommand, processBody, get_headlines, hkey, hne, hg, hf, hy, hli, hp, hn,
    Bool.false_eq_true, if_false, ite_false, if_true, ite_true, List.map_cons, List.map_nil,
    List.nil_append, List.append_nil]

/-- Claim C6 witness. -/
theorem news_without_key_witness :
    processCommand ⟨none, some [], false⟩ ⟨noFail, NewsResponse.exn, none⟩ "tell me the news" =
      ([Ev.speak "Fetching the top headlines.",
        Ev.speak "News API key not configured. Put NEWS_API_KEY in client.py."], false) :=
  news_without_key ⟨none, some [], false⟩ ⟨noFail, NewsResponse.exn, none⟩ "tell me the news"
    rfl (by decide) (by decide) (by decide) (by decide) (by decide) (by decide) (by decide)

/-- Claim C6 counterexample: with no news key configured the program does
not speak only the configuration-missing message; it speaks the fetching
announcement first. -/
theorem news_without_key_cex :
    (processCommand ⟨none, some [], false⟩ ⟨noFail, NewsResponse.exn, none⟩
        "tell me the news").1 =
      [Ev.speak "Fetching the top headlines.",
       Ev.speak "News API key not configured. Put NEWS_API_KEY in client.py."] ∧
    (processCommand ⟨none, some [], false⟩ ⟨noFail, NewsResponse.exn, none⟩
        "tell me the news").1 ≠
      [Ev.speak "News API key not configured. Put NEWS_API_KEY in client.py."] := by decide

/-- Claim C7: no exception escapes processCommand, and a dispatch branch
that raises contributes its partial trace followed by exactly one spoken
apology utterance appended at the dispatch boundary. -/
theorem dispatch_catches (cfg : Config) (w : World) (c : String) :
    (processCommand cfg w c).2 = false ∧
    ((processBody cfg w (pyStrip c)).2 = true →
      (processCommand cfg w c).1 =
        (processBody cfg w (pyStrip c)).1 ++ [Ev.speak apologyMsg]) := by
  by_cases h : pyStrip c = ""
  · constructor
    · simp only [processCommand, h, if_true, ite_true]
    · intro hb
      rw [h] at hb
      have hfalse : (processBody cfg w "").2 = false := rfl
      rw [hfalse] at hb
      cases hb
  · by_cases hb : (processBody cfg w (pyStrip c)).2 = true
    · constructor
      · simp only [processCommand, h, hb, Bool.false_eq_true, if_false, ite_false,
          if_true, ite_true]
      · intro _
        simp only [processCommand, h, hb, Bool.false_eq_true, if_false, ite_false,
          if_true, ite_true]
    · constructor
      · simp only [processCommand, h, hb, Bool.false_eq_true, if_false, ite_false]
      · intro hbb
        exact absurd hbb hb

/-- Claim C7 witness. -/
theorem dispatch_catches_witness :
    (processBody ⟨none, none, false⟩ ⟨fun _ => true, NewsResponse.exn, none⟩
        (pyStrip "open google")).2 = true ∧
    (processCommand ⟨none, none, false⟩ ⟨fun _ => true, NewsResponse.exn, none⟩
        "open google").1 =
      (processBody ⟨none, none, false⟩ ⟨fun _ => true, NewsResponse.exn, none⟩
          (pyStrip "open google")).1 ++ [Ev.speak apologyMsg] :=
  ⟨by decide,
   (dispatch_catches ⟨none, none, false⟩ ⟨fun _ => true, NewsResponse.exn, none⟩
      "open google").2 (by decide)⟩

/-- Claim C8: every chunk of an utterance is attempted on the primary path
regardless of earlier failures, a failing primary attempt is retried on the
secondary path with the same chunk text, and a doubly failing chunk is
dropped with the adapter returning a trace rather than propagating. -/
theorem synth_fallback (pOk sOk : String → Bool) (text t : String) :
    (speakRun pOk sOk text).filterMap primaryText = speakCalls text ∧
    (pOk t = false →
      speak_with_pygame pOk sOk t =
        SynthEv.primaryFailure t ::
          (if sOk t then [SynthEv.fallbackPlayed t] else [SynthEv.fallbackFailure t])) := by
  constructor
  · have hone : ∀ x, (speak_with_pygame pOk sOk x).filterMap primaryText = [x] := by
      intro x
      unfold speak_with_pygame
      by_cases hp : pOk x
      · rw [if_pos hp]; rfl
      · rw [if_neg hp]
        by_cases hs : sOk x
        · rw [if_pos hs]; rfl
        · rw [if_neg hs]; rfl
    unfold speakRun
    generalize speakCalls text = calls
    induction calls with
    | nil => rfl
    | cons x xs ih =>
      rw [List.flatMap_cons, List.filterMap_append, hone x, ih]
      rfl
  · intro hp
    unfold speak_with_pygame
    rw [if_neg (by simp [hp])]
    by_cases hs : sOk t
    · rw [if_pos hs, if_pos hs]
    · rw [if_neg hs, if_neg hs]

/-- Claim C8 witness. -/
theorem synth_fallback_witness :
    (speakRun (fun _ => false) (fun _ => false) "A. B").filterMap primaryText =
      speakCalls "A. B" ∧
    speak_with_pygame (fun _ => false) (fun _ => false) "A." =
      [SynthEv.primaryFailure "A.", SynthEv.fallbackFailure "A."] :=
  ⟨(synth_fallback (fun _ => false) (fun _ => false) "A. B" "A.").1,
   (synth_fallback (fun _ => false) (fun _ => false) "A. B" "A.").2 rfl⟩

/-- Claim C10: get_headlines ignores both of its parameters: its result does
not depend on country or page_size, the request URL is the hard-coded
country-in URL, and on a successful response every article title is
included, with no page_size truncation. -/
theorem headlines_ignore_params (key : Option String) (resp : NewsResponse)
    (c1 c2 : String) (p1 p2 : Nat) :
    get_headlines key resp c1 p1 = get_headlines key resp c2 p2 ∧
    (∀ k, k ≠ "" → (get_headlines (some k) resp c1 p1).1 = [Ev.httpGet (newsUrl k)]) ∧
    (∀ k arts, k ≠ "" → arts ≠ [] →
      (get_headlines (some k) (NewsResponse.http 200 (some arts)) c1 p1).2 =
        arts.map (fun a => a.title.getD "Untitled")) := by
  refine ⟨rfl, ?_, ?_⟩
  · intro k hk
    simp only [get_headlines]
    rw [if_neg hk]
    cases resp with
    | exn => rfl
    | http status articles =>
      dsimp only
      by_cases hs : status ≠ 200
      · rw [if_pos hs]
      · rw [if_neg hs]
        by_cases ha : articles.getD [] = []
        · rw [if_pos ha]
        · rw [if_neg ha]
  · intro k arts hk ha
    simp only [get_headlines]
    rw [if_neg hk]
    rw [if_neg (by simp), Option.getD_some, if_neg ha]

/-- Claim C10 witness. -/
theorem headlines_ignore_params_witness :
    get_headlines (some "KEY") NewsResponse.exn "us" 1 =
      get_headlines (some "KEY") NewsResponse.exn "fr" 99 ∧
    (get_headlines (some "KEY") NewsResponse.exn "us" 1).1 = [Ev.httpGet (newsUrl "KEY")] ∧
    (get_headlines (some "KEY")
        (NewsResponse.http 200 (some [⟨some "T1"⟩, ⟨none⟩])) "us" 1).2 =
      ([⟨some "T1"⟩, ⟨none⟩] : List Article).map (fun a => a.title.getD "Untitled") :=
  ⟨(headlines_ignore_params (some "KEY") NewsResponse.exn "us" "fr" 1 99).1,
   (headlines_ignore_params (some "KEY") NewsResponse.exn "us" "fr" 1 99).2.1
      "KEY" (by decide),
   (headlines_ignore_params (some "KEY") (NewsResponse.http 200 (some [⟨some "T1"⟩, ⟨none⟩]))
      "us" "fr" 1 99).2.2 "KEY" [⟨some "T1"⟩, ⟨none⟩] (by decide) (by decide)⟩

end Jarvis
